import Mathlib

/-!
Verification of the EAN history search program (src/ean_history_search.py).

The development shallowly embeds the parts of the program that the claims
are about: the code validator `validate_ean`, the content analyser
`analyze_content` (including the fixed regular-expression tables it applies,
via a small backtracking matching engine faithful to the semantics of the
Python `re` module on exactly those patterns), and the result-collection
step of `search`.

Strings are modelled as `List Char`.  Character predicates follow the
ASCII fragment of the Python semantics: `str.isdigit`, `\d`, `\w`, `\s`,
`str.lower` and `re.IGNORECASE` are modelled on the ASCII range, which is
the range exercised by all inputs considered here (the pattern literals
themselves are already lower case in the source).  `re.IGNORECASE`
searches are modelled by matching over the lowercased text while slicing
captured groups from the original text, exactly as the byte offsets work
in the Python code; character classes under IGNORECASE are folded
accordingly (for example `[A-Z]` matches any ASCII letter, so on the
lowercased text it is the class of lower-case letters).

Python `max(0, i - 400)` on ints coincides with truncated `Nat`
subtraction `i - 400`, which is used for the window lower bounds.
-/

set_option maxRecDepth 20000

namespace EanSearch

/-- Character-list form of a string literal. -/
def L (s : String) : List Char := s.data

/-- Python `\s` (ASCII fragment). -/
def isSpacePy (c : Char) : Bool :=
  c == ' ' || c == '\t' || c == '\n' || c == '\r' || c == '\x0b' || c == '\x0c'

/-- Python `\w` (ASCII fragment): alphanumeric or underscore. -/
def isWordPy (c : Char) : Bool := c.isAlphanum || c == '_'

/-- Python `\d` (ASCII fragment). -/
def isDigitPy (c : Char) : Bool := c.isDigit

/-- The class `[\s:-]` of the EAN mention patterns. -/
def gapCls (c : Char) : Bool := isSpacePy c || c == ':' || c == '-'

/-- The class `[\s:]` of the product and date patterns. -/
def spColonCls (c : Char) : Bool := isSpacePy c || c == ':'

/-- The class `[\s,]` of the month patterns. -/
def spCommaCls (c : Char) : Bool := isSpacePy c || c == ','

/-- The slash-or-hyphen class of the numeric date patterns. -/
def slashDashCls (c : Char) : Bool := c == '/' || c == '-'

/-- The class `[^\n\.]`. -/
def notNlDotCls (c : Char) : Bool := !(c == '\n' || c == '.')

/-- ASCII lower-case letter: the class `[A-Z]` under IGNORECASE, as seen on
lowercased text. -/
def lowerAlphaCls (c : Char) : Bool :=
  decide (97 ≤ c.toNat) && decide (c.toNat ≤ 122)

/-- The class `[^a-z\n\.]` under IGNORECASE, as seen on lowercased text. -/
def notLowerNlDotCls (c : Char) : Bool :=
  !(lowerAlphaCls c || c == '\n' || c == '.')

/-- The class `[^>]`. -/
def notGtCls (c : Char) : Bool := !(c == '>')

/-- The class `[\n\.]` used in the lookbehind of the heuristic product
patterns. -/
def nlDotCls (c : Char) : Bool := c == '\n' || c == '.'

/-- `.` under DOTALL: any character. -/
def anyCls (_c : Char) : Bool := true

/-- Python `str.lower` (ASCII fragment). -/
def lowerL (l : List Char) : List Char := l.map Char.toLower

/-- Python `str.strip()`. -/
def pyStrip (l : List Char) : List Char :=
  ((l.dropWhile isSpacePy).reverse.dropWhile isSpacePy).reverse

/-- Helper for `squashWs`: the boolean records whether the previous
character was part of a whitespace run already replaced by a space. -/
def squashAux : List Char → Bool → List Char
  | [], _ => []
  | c :: rest, inRun =>
    if isSpacePy c then
      if inRun then squashAux rest true else ' ' :: squashAux rest true
    else c :: squashAux rest false

/-- Python `re.sub(r'\s+', ' ', s)`: collapse each whitespace run to one
space. -/
def squashWs (l : List Char) : List Char := squashAux l false

/-- Python slice `l[a:b]` (for `0 ≤ a ≤ b`). -/
def slice (l : List Char) (a b : Nat) : List Char := (l.drop a).take (b - a)

/-- The literal word `w` occurs in `s` starting at position `p`. -/
def isSubAt (w s : List Char) (p : Nat) : Bool :=
  decide ((s.drop p).take w.length = w)

/-- Python `w in s` (substring containment). -/
def containsSub (w s : List Char) : Bool :=
  (List.range (s.length + 1)).any (fun i => isSubAt w s i)

/-- Python `s.find(w)`, restricted to the found case: the least position at
which `w` occurs in `s`. -/
def findSub (w s : List Char) : Option Nat :=
  (List.range (s.length + 1)).find? (fun i => isSubAt w s i)

/-- Length of the maximal run of class characters at the head of a list. -/
def runLenAux (q : Char → Bool) : List Char → Nat
  | [] => 0
  | c :: rest => if q c then runLenAux q rest + 1 else 0

/-- Length of the maximal run of class characters starting at position `p`. -/
def runLen (q : Char → Bool) (s : List Char) (p : Nat) : Nat :=
  runLenAux q (s.drop p)

/-- Is the character at position `i` a word character (out-of-range counts
as no)? -/
def wordAt (s : List Char) (i : Nat) : Bool :=
  match s[i]? with
  | some c => isWordPy c
  | none => false

/-- Python `\b` at position `p`. -/
def boundaryAt (s : List Char) (p : Nat) : Bool :=
  (if p == 0 then false else wordAt s (p - 1)) != wordAt s p

/-- Regular expressions, covering exactly the constructs appearing in the
fixed pattern tables of `analyze_content`:
literal alternations, one-character classes, sequencing, binary
alternation, greedy counted class repetition (`*`, `+`, `{m,n}` over a
class), the lazy DOTALL star `.*?` of the title pattern, `\b`, `^`
(without MULTILINE: beginning of the subject), one-character lookbehind,
and a capture group (each source pattern has at most one). -/
inductive RE where
  | lits (ws : List (List Char))
  | cls (q : Char → Bool)
  | seq (a b : RE)
  | alt2 (a b : RE)
  | repc (q : Char → Bool) (lo : Nat) (hi : Option Nat)
  | lazyAll
  | wb
  | bos
  | lookback (q : Char → Bool)
  | group (r : RE)

/-- One way a pattern can match when started at a fixed position: the end
position, and the capture-group span if a group participated. -/
structure MRes where
  stop : Nat
  grp : Option (Nat × Nat)
deriving DecidableEq, Repr

/-- The largest repetition count available to a greedy counted class
repetition at position `p`: the run length, capped by the upper bound when
there is one. -/
def repTop (q : Char → Bool) (hi : Option Nat) (s : List Char) (p : Nat) : Nat :=
  match hi with
  | some h => min (runLen q s p) h
  | none => runLen q s p

/-- All ways `r` can match `s` starting at position `p`, in the preference
order of the Python backtracking engine (first element = the match Python
selects once the start position is fixed). -/
def mlist : RE → List Char → Nat → List MRes
  | .lits ws, s, p =>
    ws.filterMap (fun w => if isSubAt w s p then some ⟨p + w.length, none⟩ else none)
  | .cls q, s, p =>
    match s[p]? with
    | some c => if q c then [⟨p + 1, none⟩] else []
    | none => []
  | .seq a b, s, p =>
    (mlist a s p).flatMap (fun m =>
      (mlist b s m.stop).map (fun m2 =>
        ⟨m2.stop, match m2.grp with | some g => some g | none => m.grp⟩))
  | .alt2 a b, s, p => mlist a s p ++ mlist b s p
  | .repc q lo hi, s, p =>
    if lo ≤ repTop q hi s p then
      (List.range (repTop q hi s p + 1 - lo)).map (fun k => ⟨p + (repTop q hi s p - k), none⟩)
    else []
  | .lazyAll, s, p => (List.range (s.length + 1 - p)).map (fun k => ⟨p + k, none⟩)
  | .wb, s, p => if boundaryAt s p then [⟨p, none⟩] else []
  | .bos, _s, p => if p == 0 then [⟨p, none⟩] else []
  | .lookback q, s, p =>
    if p == 0 then []
    else match s[p - 1]? with
      | some c => if q c then [⟨p, none⟩] else []
      | none => []
  | .group r, s, p => (mlist r s p).map (fun m => ⟨m.stop, some (p, m.stop)⟩)

/-- Python `re.search` scanning from position `p` with explicit fuel: the
first start position (from the left) admitting a match, together with the
preferred match there. -/
def searchFromFuel (r : RE) (s : List Char) (p : Nat) : Nat → Option (Nat × MRes)
  | 0 => none
  | fuel + 1 =>
    if p ≤ s.length then
      match mlist r s p with
      | m :: _ => some (p, m)
      | [] => searchFromFuel r s (p + 1) fuel
    else none

/-- Python `re.search`. -/
def searchRE (r : RE) (s : List Char) : Option (Nat × MRes) :=
  searchFromFuel r s 0 (s.length + 1)

/-- Python `re.finditer` with explicit fuel: repeated search, resuming at
the end of the previous match (one past it for an empty match). -/
def finditerFuel (r : RE) (s : List Char) (p : Nat) : Nat → List (Nat × Nat)
  | 0 => []
  | fuel + 1 =>
    match searchFromFuel r s p (s.length + 1 - p) with
    | some (ms, m) =>
      (ms, m.stop) :: finditerFuel r s (if ms < m.stop then m.stop else ms + 1) fuel
    | none => []

/-- Python `re.finditer`: the list of (start, end) spans of the
non-overlapping matches, left to right. -/
def finditerRE (r : RE) (s : List Char) : List (Nat × Nat) :=
  finditerFuel r s 0 (s.length + 1)

/-- First pattern of an ordered list that matches somewhere in the subject,
with its match (the `for pattern in ...: if re.search(...): break` idiom). -/
def firstSearch : List RE → List Char → Option (Nat × MRes)
  | [], _ => none
  | r :: rest, s =>
    match searchRE r s with
    | some x => some x
    | none => firstSearch rest s

/-! ### The pattern tables of `analyze_content` -/

/-- The first EAN mention pattern, compiled without flags:
the word-bounded bare code. -/
def eanPatWord (ean : List Char) : RE := .seq .wb (.seq (.lits [ean]) .wb)

/-- The prefixed EAN mention patterns, compiled without flags: a literal
label, an arbitrary run of the space-colon-hyphen class, then the code. -/
def eanPatLabel (lbl ean : List Char) : RE :=
  .seq (.lits [lbl]) (.seq (.repc gapCls 0 none) (.lits [ean]))

/-- The ordered `ean_patterns` list. -/
def eanPatterns (ean : List Char) : List RE :=
  [eanPatWord ean,
   eanPatLabel (L "EAN") ean,
   eanPatLabel (L "código") ean,
   eanPatLabel (L "barcode") ean,
   eanPatLabel (L "UPC") ean]

/-- A labelled extraction pattern: a literal alternation, one or more
space-or-colon characters, then a captured class repetition. -/
def labelledPat (lbls : List (List Char)) (q : Char → Bool) (lo hi : Nat) : RE :=
  .seq (.lits lbls) (.seq (.repc spColonCls 1 none) (.group (.repc q lo (some hi))))

/-- The ordered `product_patterns` list (searched with IGNORECASE). -/
def productPatterns : List RE :=
  [labelledPat [L "producto", L "artículo", L "item", L "product", L "item"] notNlDotCls 5 50,
   labelledPat [L "nombre", L "título", L "name", L "title"] notNlDotCls 5 50,
   labelledPat [L "modelo", L "referencia", L "model", L "reference"] notNlDotCls 5 50,
   labelledPat [L "descripción", L "description"] notNlDotCls 5 50,
   .seq (.alt2 .bos (.lookback nlDotCls))
     (.group (.seq (.cls lowerAlphaCls) (.repc notNlDotCls 5 (some 50)))),
   .seq (.alt2 .bos (.lookback nlDotCls))
     (.group (.repc notLowerNlDotCls 5 (some 50)))]

/-- The Spanish month names. -/
def monthsEs : List (List Char) :=
  [L "enero", L "febrero", L "marzo", L "abril", L "mayo", L "junio", L "julio",
   L "agosto", L "septiembre", L "octubre", L "noviembre", L "diciembre"]

/-- The English month names. -/
def monthsEn : List (List Char) :=
  [L "january", L "february", L "march", L "april", L "may", L "june", L "july",
   L "august", L "september", L "october", L "november", L "december"]

/-- A month pattern: month names, one or more space-or-comma characters,
then a captured four-digit year. -/
def monthPat (months : List (List Char)) : RE :=
  .seq (.lits months) (.seq (.repc spCommaCls 1 none) (.group (.repc isDigitPy 4 (some 4))))

/-- The ordered `date_patterns` list (searched with IGNORECASE). -/
def datePatterns : List RE :=
  [labelledPat [L "año", L "modelo", L "year", L "model"] isDigitPy 4 4,
   labelledPat [L "versión", L "edición", L "version", L "edition"] notNlDotCls 5 30,
   .lits [L "descatalogado", L "discontinuado", L "obsoleto", L "discontinued", L "obsolete"],
   .lits [L "anterior", L "previo", L "antiguo", L "previous", L "old", L "former"],
   labelledPat [L "desde", L "hasta", L "entre", L "from", L "to", L "between"] isDigitPy 4 4,
   .group (.seq (.repc isDigitPy 1 (some 2)) (.seq (.cls slashDashCls)
     (.seq (.repc isDigitPy 1 (some 2)) (.seq (.cls slashDashCls) (.repc isDigitPy 2 (some 4)))))),
   .group (.seq (.repc isDigitPy 4 (some 4)) (.seq (.cls slashDashCls)
     (.seq (.repc isDigitPy 1 (some 2)) (.seq (.cls slashDashCls) (.repc isDigitPy 1 (some 2)))))),
   monthPat monthsEs,
   monthPat monthsEn]

/-- Two-word indicator pattern: an alternation, a literal space, then a
second alternation. -/
def twoWordPat (xs ys : List (List Char)) : RE :=
  .seq (.lits xs) (.seq (.lits [L " "]) (.lits ys))

/-- The `historical_indicators` pattern list (searched with IGNORECASE). -/
def historicalIndicators : List RE :=
  [.lits [L "descatalogado", L "discontinuado", L "obsoleto", L "discontinued", L "obsolete"],
   .lits [L "ya no", L "no disponible", L "not available", L "no longer"],
   .lits [L "versión anterior", L "modelo antiguo", L "previous version", L "old model"],
   .lits [L "reemplazado por", L "sustituido por", L "replaced by", L "substituted by"],
   .lits [L "histórico", L "historia", L "pasado", L "historic", L "history", L "past"],
   .lits [L "fue", L "era", L "was", L "were"],
   .lits [L "antiguo", L "antigüedad", L "antique", L "vintage"],
   twoWordPat [L "colección", L "collection"] [L "pasada", L "anterior", L "old"]]

/-- The `current_indicators` pattern list (searched with IGNORECASE). -/
def currentIndicators : List RE :=
  [.lits [L "nuevo", L "actual", L "vigente", L "new", L "current"],
   .lits [L "disponible", L "en stock", L "available", L "in stock"],
   .lits [L "versión actual", L "último modelo", L "current version", L "latest model"],
   .lits [L "reciente", L "recién", L "recent", L "recently"],
   .lits [L "comprar", L "compra ahora", L "buy", L "buy now"],
   .lits [L "añadir al carrito", L "add to cart"],
   .lits [L "precio actual", L "current price"],
   twoWordPat [L "envío", L "shipping"] [L "gratis", L "gratuito", L "free"]]

/-- The page-title pattern, searched with IGNORECASE and DOTALL. -/
def titlePat : RE :=
  .seq (.lits [L "<title"]) (.seq (.repc notGtCls 0 none)
    (.seq (.lits [L ">"]) (.seq (.group .lazyAll) (.lits [L "</title>"]))))

/-! ### The data model and `analyze_content` -/

/-- One finding dictionary of `analyze_content` (and of the other source
lookups). -/
structure Finding where
  product_name : List Char
  date_clue : List Char
  assessment : List Char
  snippet : List Char
  url : List Char
deriving DecidableEq, Repr

/-- The per-source result dictionary: source url plus its findings. -/
structure SourceResult where
  url : List Char
  findings : List Finding
deriving DecidableEq, Repr

/-- Number of patterns of a list that match somewhere in the (lowercased)
context: each `re.search` hit adds one to the score. -/
def countMatching (rs : List RE) (low : List Char) : Nat :=
  (rs.filter (fun r => (searchRE r low).isSome)).length

/-- `historical_score` of a context window. -/
def historicalScore (ctx : List Char) : Nat :=
  countMatching historicalIndicators (lowerL ctx)

/-- `current_score` of a context window. -/
def currentScore (ctx : List Char) : Nat :=
  countMatching currentIndicators (lowerL ctx)

/-- The assessment assigned to a context window: `Histórico` when the
historical score is strictly larger, `Actual` when the current score is
strictly larger, and the initial `Indeterminado` otherwise. -/
def assess (ctx : List Char) : List Char :=
  if currentScore ctx < historicalScore ctx then L "Histórico"
  else if historicalScore ctx < currentScore ctx then L "Actual"
  else L "Indeterminado"

/-- The context window around a mention spanning `[ms, me)`:
`content[max(0, ms - 400) : min(len, me + 400)]`
(truncated `Nat` subtraction realises the `max` with `0`). -/
def contextOf (content : List Char) (ms me : Nat) : List Char :=
  slice content (ms - 400) (min content.length (me + 400))

/-- Group-1 extraction used by the product patterns: the captured span,
sliced from the original (non-lowercased) text and stripped.  Every
product pattern has exactly one mandatory group, so the `none` branch is
unreachable on the table above; it is mapped to the not-found sentinel. -/
def groupExtract (orig : List Char) (res : MRes) : List Char :=
  match res.grp with
  | some ab => pyStrip (slice orig ab.1 ab.2)
  | none => L "No identificado"

/-- Title extraction `re.search(r'<title[^>]*>(.*?)</title>', content,
IGNORECASE | DOTALL)` with group-1 strip, as used by the fallback branch:
no match keeps the sentinel. -/
def titleName (content : List Char) : List Char :=
  match searchRE titlePat (lowerL content) with
  | some (_, res) => groupExtract content res
  | none => L "No identificado"

/-- The product name extracted from a context window: first matching
product pattern (group 1, stripped); if that leaves the sentinel and the
word `title` occurs in the lowercased page, fall back to the page-title
markup. -/
def productName (content context : List Char) : List Char :=
  let pn :=
    match firstSearch productPatterns (lowerL context) with
    | some (_, res) => groupExtract context res
    | none => L "No identificado"
  if pn = L "No identificado" ∧ containsSub (L "title") (lowerL content) = true then
    match searchRE titlePat (lowerL content) with
    | some (_, res) =>
      match res.grp with
      | some ab => pyStrip (slice content ab.1 ab.2)
      | none => pn
    | none => pn
  else pn

/-- The temporal clue extracted from a context window: first matching date
pattern; group 1 (stripped) when the pattern has a capture group, the
whole match (stripped) otherwise; the explicit sentinel when nothing
matches. -/
def dateClue (context : List Char) : List Char :=
  match firstSearch datePatterns (lowerL context) with
  | some (ms, res) =>
    (match res.grp with
     | some ab => pyStrip (slice context ab.1 ab.2)
     | none => pyStrip (slice context ms res.stop))
  | none => L "No identificado"

/-- The cleaned snippet of a context window:
`re.sub(r'\s+', ' ', context).strip()`. -/
def cleanSnippet (context : List Char) : List Char := pyStrip (squashWs context)

/-- The finding built for one EAN mention spanning `mm`. -/
def processMatch (content url : List Char) (mm : Nat × Nat) : Finding :=
  let context := contextOf content mm.1 mm.2
  ⟨productName content context, dateClue context, assess context,
   cleanSnippet context, url⟩

/-- Append a finding unless an already-collected finding has the same
snippet text. -/
def dedupAppend (acc : List Finding) (f : Finding) : List Finding :=
  if acc.any (fun ex => decide (ex.snippet = f.snippet)) then acc else acc ++ [f]

/-- The concatenated spans of all `finditer` passes of the five EAN
mention patterns, in pattern order. -/
def eanMatches (ean content : List Char) : List (Nat × Nat) :=
  (eanPatterns ean).flatMap (fun r => finditerRE r content)

/-- The findings of the pattern-based phase, deduplicated by snippet as
they are collected. -/
def patternFindings (ean content url : List Char) : List Finding :=
  (eanMatches ean content).foldl
    (fun acc mm => dedupAppend acc (processMatch content url mm)) []

/-- The single fallback finding: best-effort title extraction, sentinel
date clue, `Indeterminado`, and the cleaned window around the first raw
occurrence of the code. -/
def fallbackFinding (ean content url : List Char) : Finding :=
  let pos := (findSub ean content).getD 0
  ⟨titleName content, L "No identificado", L "Indeterminado",
   cleanSnippet (slice content (pos - 400) (min content.length (pos + 400))), url⟩

/-- The complete findings list of `analyze_content`: the pattern-based
findings, extended by the single fallback finding when there are none but
the raw code occurs in the content. -/
def allFindings (ean content url : List Char) : List Finding :=
  if (patternFindings ean content url).isEmpty && containsSub ean content then
    patternFindings ean content url ++ [fallbackFinding ean content url]
  else patternFindings ean content url

/-- `EANHistoryFinder.analyze_content`: empty content yields nothing;
otherwise the findings list as above; no findings at all yields nothing. -/
def analyze_content (ean content url : List Char) : Option SourceResult :=
  if content.isEmpty then none
  else if (allFindings ean content url).isEmpty then none
  else some ⟨url, allFindings ean content url⟩

/-! ### `validate_ean` and the result collection of `search` -/

/-- Python `str.isdigit` (ASCII fragment): non-empty and all digits. -/
def pyIsdigit (l : List Char) : Bool := !l.isEmpty && l.all Char.isDigit

/-- The numeric value of the digit character at position `i`. -/
def digitAt (ean : List Char) (i : Nat) : Nat := (ean.getD i '0').toNat - 48

/-- The weighted total over the first 12 digits as the code computes it:
weight 1 at even 0-based positions, weight 3 at odd ones. -/
def ean13Total (ean : List Char) : Nat :=
  (List.range 12).foldl
    (fun acc i => acc + (if i % 2 = 0 then digitAt ean i else 3 * digitAt ean i)) 0

/-- `EANHistoryFinder.validate_ean`: digits only, length 8, 13 or 14, and
for length 13 the check digit `(10 - total % 10) % 10` must equal the
13th digit. -/
def validate_ean (ean : List Char) : Bool :=
  if !pyIsdigit ean then false
  else if ¬(ean.length = 8 ∨ ean.length = 13 ∨ ean.length = 14) then false
  else if ean.length = 13 then
    decide ((10 - ean13Total ean % 10) % 10 = digitAt ean 12)
  else true

/-- The weighted total as the specification words it: the sum over the
first 12 digits of weight 1 at even 0-based indices and weight 3 at odd
ones. -/
def specTotal (ean : List Char) : Nat :=
  ((List.range 12).map (fun i => (if i % 2 = 0 then 1 else 3) * digitAt ean i)).sum

/-- The result-collection step of `EANHistoryFinder.search`: each task
result that is present and has a non-empty findings list is appended, in
completion order. -/
def collectResults (taskResults : List (Option SourceResult)) : List SourceResult :=
  (taskResults.filterMap id).filter (fun r => !r.findings.isEmpty)

/-- `EANHistoryFinder.search`, abstracted over the completed task results:
an invalid code short-circuits to the empty list (after logging); a valid
code collects the non-empty task results.  The function returns a plain
list - the code has no error channel and raises nothing for invalid
input. -/
def search (ean : List Char) (taskResults : List (Option SourceResult)) :
    List SourceResult :=
  if validate_ean ean then collectResults taskResults else []

/-! ### Concrete instances used by scenario theorems and witnesses -/

/-- The code of the specification's checksum-failure scenario.  Its check
digit is in fact correct: the weighted total of 123456789012 is 92, so the
check digit is 8. -/
def code128 : List Char := L "1234567890128"

/-- A 13-digit code whose check digit is wrong (the correct one is 8). -/
def code123 : List Char := L "1234567890123"

/-- The content of the specification's Historical scenario. -/
def c9content : List Char := L "...EAN 1234567890123 fue descatalogado en 2015..."

/-- A small content equal to a bare 8-digit code. -/
def smallContent : List Char := L "12345678"

/-- The analysis result of `smallContent` for the code `12345678`. -/
def smallResult : SourceResult :=
  ⟨L "u", [⟨L "12345678", L "No identificado", L "Indeterminado", L "12345678", L "u"⟩]⟩

/-- A sample non-empty source result used in order-insensitivity
witnesses. -/
def sampleResult : SourceResult :=
  ⟨L "http://x", [⟨L "p", L "d", L "Indeterminado", L "s", L "http://x"⟩]⟩

/-! ### Engine metatheory -/

theorem runLenAux_le (q : Char → Bool) (l : List Char) : runLenAux q l ≤ l.length := by
  induction l with
  | nil => simp [runLenAux]
  | cons c rest ih =>
    simp only [runLenAux, List.length_cons]
    split
    · omega
    · omega

theorem runLen_le (q : Char → Bool) (s : List Char) (p : Nat) :
    runLen q s p ≤ s.length - p := by
  have h := runLenAux_le q (s.drop p)
  simpa [runLen, List.length_drop] using h

theorem repTop_le (q : Char → Bool) (hi : Option Nat) (s : List Char) (p : Nat) :
    repTop q hi s p ≤ s.length - p := by
  have h := runLen_le q s p
  cases hi with
  | none => simpa [repTop] using h
  | some hb => simp only [repTop]; omega

theorem isSubAt_len {w s : List Char} {p : Nat} (h : isSubAt w s p = true) :
    w.length ≤ s.length - p := by
  have h' : (s.drop p).take w.length = w := by simpa [isSubAt] using h
  have hlen : ((s.drop p).take w.length).length = w.length := by rw [h']
  simp only [List.length_take, List.length_drop] at hlen
  omega

theorem mlist_bounds (r : RE) (s : List Char) :
    ∀ p m, m ∈ mlist r s p → p ≤ m.stop ∧ (p ≤ s.length → m.stop ≤ s.length) := by
  induction r with
  | lits ws =>
    intro p m hm
    simp only [mlist, List.mem_filterMap] at hm
    obtain ⟨w, _, hif⟩ := hm
    by_cases hsub : isSubAt w s p = true
    · rw [if_pos hsub] at hif
      cases hif
      have := isSubAt_len hsub
      constructor
      · simp
      · intro hp; simp only; omega
    · rw [if_neg hsub] at hif; cases hif
  | cls q =>
    intro p m hm
    simp only [mlist] at hm
    split at hm
    · rename_i c hg
      split at hm
      · simp only [List.mem_singleton] at hm
        subst hm
        have hp : p < s.length := by
          by_contra hnp
          rw [List.getElem?_eq_none (by omega)] at hg
          cases hg
        exact ⟨by simp, fun _ => by simp only; omega⟩
      · simp at hm
    · simp at hm
  | seq a b iha ihb =>
    intro p m hm
    simp only [mlist, List.mem_flatMap, List.mem_map] at hm
    obtain ⟨m1, hm1, m2, hm2, heq⟩ := hm
    have h1 := iha p m1 hm1
    have h2 := ihb m1.stop m2 hm2
    have hstop : m.stop = m2.stop := by rw [← heq]
    refine ⟨by omega, fun hp => ?_⟩
    have := h1.2 hp
    have := h2.2 (by omega)
    omega
  | alt2 a b iha ihb =>
    intro p m hm
    simp only [mlist, List.mem_append] at hm
    rcases hm with hm | hm
    · exact iha p m hm
    · exact ihb p m hm
  | repc q lo hi =>
    intro p m hm
    simp only [mlist] at hm
    split at hm
    · simp only [List.mem_map, List.mem_range] at hm
      obtain ⟨k, _, heq⟩ := hm
      cases heq
      have := repTop_le q hi s p
      exact ⟨by simp only; omega, fun hp => by simp only; omega⟩
    · simp at hm
  | lazyAll =>
    intro p m hm
    simp only [mlist, List.mem_map, List.mem_range] at hm
    obtain ⟨k, hk, heq⟩ := hm
    cases heq
    exact ⟨by simp only; omega, fun hp => by simp only; omega⟩
  | wb =>
    intro p m hm
    simp only [mlist] at hm
    split at hm
    · simp only [List.mem_singleton] at hm
      subst hm
      exact ⟨le_refl _, fun hp => hp⟩
    · simp at hm
  | bos =>
    intro p m hm
    simp only [mlist] at hm
    split at hm
    · simp only [List.mem_singleton] at hm
      subst hm
      exact ⟨le_refl _, fun hp => hp⟩
    · simp at hm
  | lookback q =>
    intro p m hm
    simp only [mlist] at hm
    split at hm
    · simp at hm
    · split at hm
      · split at hm
        · simp only [List.mem_singleton] at hm
          subst hm
          exact ⟨le_refl _, fun hp => hp⟩
        · simp at hm
      · simp at hm
  | group r ih =>
    intro p m hm
    simp only [mlist, List.mem_map] at hm
    obtain ⟨m1, hm1, heq⟩ := hm
    cases heq
    have h1 := ih p m1 hm1
    exact ⟨h1.1, h1.2⟩

theorem searchFromFuel_some (r : RE) (s : List Char) :
    ∀ fuel p ms m, searchFromFuel r s p fuel = some (ms, m) →
      p ≤ ms ∧ ms ≤ s.length ∧ m ∈ mlist r s ms := by
  intro fuel
  induction fuel with
  | zero => intro p ms m h; simp [searchFromFuel] at h
  | succ n ih =>
    intro p ms m h
    simp only [searchFromFuel] at h
    split at h
    · rename_i hple
      split at h
      · rename_i m0 rest heq
        injection h with h'
        injection h' with h1 h2
        subst h1; subst h2
        exact ⟨le_refl _, hple, heq ▸ List.mem_cons_self _ _⟩
      · have := ih (p + 1) ms m h
        exact ⟨by omega, this.2.1, this.2.2⟩
    · cases h

theorem finditerFuel_mem (r : RE) (s : List Char) :
    ∀ fuel p ms me, (ms, me) ∈ finditerFuel r s p fuel →
      ms ≤ s.length ∧ ∃ m : MRes, m ∈ mlist r s ms ∧ me = m.stop := by
  intro fuel
  induction fuel with
  | zero => intro p ms me h; simp [finditerFuel] at h
  | succ n ih =>
    intro p ms me h
    simp only [finditerFuel] at h
    split at h
    · rename_i ms0 m0 heq
      rcases List.mem_cons.mp h with h1 | h1
      · injection h1 with e1 e2
        subst e1; subst e2
        have hs := searchFromFuel_some r s _ _ _ _ heq
        exact ⟨hs.2.1, m0, hs.2.2, rfl⟩
      · exact ih _ ms me h1
    · simp at h

theorem finditer_bounds (r : RE) (s : List Char) (ms me : Nat)
    (h : (ms, me) ∈ finditerRE r s) : ms ≤ me ∧ me ≤ s.length := by
  obtain ⟨hms, m, hmem, hme⟩ := finditerFuel_mem r s _ _ ms me h
  have hb := mlist_bounds r s ms m hmem
  exact ⟨hme ▸ hb.1, hme ▸ hb.2 hms⟩

theorem mlist_lits_sub {ws : List (List Char)} {s : List Char} {p : Nat} {m : MRes}
    (h : m ∈ mlist (RE.lits ws) s p) : ∃ w ∈ ws, isSubAt w s p = true := by
  simp only [mlist, List.mem_filterMap] at h
  obtain ⟨w, hw, hif⟩ := h
  by_cases hsub : isSubAt w s p = true
  · exact ⟨w, hw, hsub⟩
  · rw [if_neg hsub] at hif; cases hif

theorem mlist_seq_elim {a b : RE} {s : List Char} {p : Nat} {m : MRes}
    (h : m ∈ mlist (RE.seq a b) s p) :
    ∃ m1 ∈ mlist a s p, ∃ m2 ∈ mlist b s m1.stop, m.stop = m2.stop := by
  simp only [mlist, List.mem_flatMap, List.mem_map] at h
  obtain ⟨m1, hm1, m2, hm2, heq⟩ := h
  exact ⟨m1, hm1, m2, hm2, by rw [← heq]⟩

theorem eanPatWord_sub {ean s : List Char} {p : Nat} {m : MRes}
    (h : m ∈ mlist (eanPatWord ean) s p) : isSubAt ean s p = true := by
  obtain ⟨m1, hm1, m2, hm2, -⟩ := mlist_seq_elim h
  have h1 : m1.stop = p := by
    simp only [mlist, eanPatWord] at hm1
    split at hm1
    · simp only [List.mem_singleton] at hm1; rw [hm1]
    · simp at hm1
  rw [h1] at hm2
  obtain ⟨m3, hm3, m4, hm4, -⟩ := mlist_seq_elim hm2
  obtain ⟨w, hw, hsub⟩ := mlist_lits_sub hm3
  simp only [List.mem_singleton] at hw
  rwa [← hw]

theorem eanPatLabel_sub {lbl ean s : List Char} {p : Nat} {m : MRes}
    (h : m ∈ mlist (eanPatLabel lbl ean) s p) : ∃ q, isSubAt ean s q = true := by
  obtain ⟨m1, hm1, m2, hm2, -⟩ := mlist_seq_elim h
  obtain ⟨m3, hm3, m4, hm4, -⟩ := mlist_seq_elim hm2
  obtain ⟨w, hw, hsub⟩ := mlist_lits_sub hm4
  simp only [List.mem_singleton] at hw
  exact ⟨m3.stop, by rwa [← hw]⟩

theorem isSubAt_contains {w s : List Char} {q : Nat} (hw : w ≠ [])
    (h : isSubAt w s q = true) : containsSub w s = true := by
  have hlen := isSubAt_len h
  have hwpos : 0 < w.length := List.length_pos.mpr hw
  have hq : q < s.length + 1 := by omega
  simp only [containsSub, List.any_eq_true]
  exact ⟨q, List.mem_range.mpr hq, h⟩

theorem findSub_le {w s : List Char} {p : Nat} (h : findSub w s = some p) :
    p ≤ s.length := by
  have hmem := List.mem_of_find?_eq_some h
  have := List.mem_range.mp hmem
  omega

theorem dedupAppend_nil (f : Finding) : dedupAppend [] f = [f] := by
  simp [dedupAppend]

theorem dedupAppend_length (acc : List Finding) (f : Finding) :
    acc.length ≤ (dedupAppend acc f).length := by
  unfold dedupAppend
  split <;> simp

theorem foldl_dedup_length (g : Nat × Nat → Finding) (l : List (Nat × Nat)) :
    ∀ acc : List Finding,
      acc.length ≤ (l.foldl (fun a mm => dedupAppend a (g mm)) acc).length := by
  induction l with
  | nil => intro acc; simp
  | cons y ys ih =>
    intro acc
    simp only [List.foldl_cons]
    exact le_trans (dedupAppend_length acc (g y)) (ih _)

theorem dedupAppend_subset {acc : List Finding} {x : Finding} (f : Finding)
    (h : x ∈ acc) : x ∈ dedupAppend acc f := by
  unfold dedupAppend
  split
  · exact h
  · exact List.mem_append_left _ h

theorem foldl_dedup_subset (g : Nat × Nat → Finding) (l : List (Nat × Nat)) :
    ∀ acc : List Finding, ∀ x ∈ acc,
      x ∈ l.foldl (fun a mm => dedupAppend a (g mm)) acc := by
  induction l with
  | nil => intro acc x hx; simpa using hx
  | cons y ys ih =>
    intro acc x hx
    simp only [List.foldl_cons]
    exact ih _ x (dedupAppend_subset _ hx)

theorem dedupAppend_snippet_mem (acc : List Finding) (f : Finding) :
    f.snippet ∈ (dedupAppend acc f).map Finding.snippet := by
  unfold dedupAppend
  split
  · rename_i hany
    simp only [List.any_eq_true, decide_eq_true_eq] at hany
    obtain ⟨ex, hex, heq⟩ := hany
    exact heq ▸ List.mem_map_of_mem _ hex
  · simp

theorem foldl_dedup_snippet_mem (g : Nat × Nat → Finding) (l : List (Nat × Nat)) :
    ∀ acc : List Finding, ∀ mm ∈ l,
      (g mm).snippet ∈
        (l.foldl (fun a m => dedupAppend a (g m)) acc).map Finding.snippet := by
  induction l with
  | nil => intro acc mm h; simp at h
  | cons y ys ih =>
    intro acc mm h
    simp only [List.foldl_cons]
    rcases List.mem_cons.mp h with h1 | h1
    · subst h1
      have hbase := dedupAppend_snippet_mem acc (g mm)
      obtain ⟨x, hx, hxe⟩ := List.mem_map.mp hbase
      exact hxe ▸ List.mem_map_of_mem _ (foldl_dedup_subset g ys _ x hx)
    · exact ih _ mm h1

theorem dedupAppend_nodup {acc : List Finding} (f : Finding)
    (h : (acc.map Finding.snippet).Nodup) :
    ((dedupAppend acc f).map Finding.snippet).Nodup := by
  unfold dedupAppend
  split
  · exact h
  · rename_i hany
    have hnot : f.snippet ∉ acc.map Finding.snippet := by
      intro hmem
      obtain ⟨ex, hex, heq⟩ := List.mem_map.mp hmem
      exact hany (List.any_eq_true.mpr ⟨ex, hex, by simp [heq]⟩)
    rw [List.map_append]
    refine List.Nodup.append h (List.nodup_singleton _) ?_
    intro a ha hb
    simp only [List.map_cons, List.map_nil, List.mem_singleton] at hb
    subst hb
    exact hnot ha

theorem foldl_dedup_nodup (g : Nat × Nat → Finding) (l : List (Nat × Nat)) :
    ∀ acc : List Finding, (acc.map Finding.snippet).Nodup →
      ((l.foldl (fun a mm => dedupAppend a (g mm)) acc).map Finding.snippet).Nodup := by
  induction l with
  | nil => intro acc h; simpa using h
  | cons y ys ih =>
    intro acc h
    simp only [List.foldl_cons]
    exact ih _ (dedupAppend_nodup _ h)

theorem dedupAppend_url {acc : List Finding} {f : Finding} {url : List Char}
    (hacc : ∀ x ∈ acc, x.url = url) (hf : f.url = url) :
    ∀ x ∈ dedupAppend acc f, x.url = url := by
  unfold dedupAppend
  split
  · exact hacc
  · intro x hx
    rcases List.mem_append.mp hx with h | h
    · exact hacc x h
    · simp only [List.mem_singleton] at h
      subst h
      exact hf

theorem foldl_dedup_url (g : Nat × Nat → Finding) (url : List Char)
    (hg : ∀ mm, (g mm).url = url) (l : List (Nat × Nat)) :
    ∀ acc : List Finding, (∀ x ∈ acc, x.url = url) →
      ∀ x ∈ l.foldl (fun a mm => dedupAppend a (g mm)) acc, x.url = url := by
  induction l with
  | nil => intro acc hacc x hx; exact hacc x (by simpa using hx)
  | cons y ys ih =>
    intro acc hacc x hx
    simp only [List.foldl_cons] at hx
    exact ih _ (dedupAppend_url hacc (hg y)) x hx

theorem processMatch_url (content url : List Char) (mm : Nat × Nat) :
    (processMatch content url mm).url = url := rfl

theorem fallbackFinding_url (ean content url : List Char) :
    (fallbackFinding ean content url).url = url := rfl

theorem fallbackFinding_assessment (ean content url : List Char) :
    (fallbackFinding ean content url).assessment = L "Indeterminado" := rfl

theorem patternFindings_nil_iff (ean content url : List Char) :
    patternFindings ean content url = [] ↔ eanMatches ean content = [] := by
  unfold patternFindings
  cases h : eanMatches ean content with
  | nil => simp
  | cons y ys =>
    simp only [List.foldl_cons, dedupAppend_nil]
    constructor
    · intro hfold
      have := foldl_dedup_length (fun mm => processMatch content url mm) ys
        [processMatch content url y]
      rw [hfold] at this
      simp at this
    · intro hcons; cases hcons

theorem containsSub_nil {w : List Char} (hw : w ≠ []) :
    containsSub w ([] : List Char) = false := by
  have h0 : ∀ i, isSubAt w ([] : List Char) i = false := by
    intro i
    simp only [isSubAt, List.drop_nil, List.take_nil, decide_eq_false_iff_not]
    exact fun h => hw h.symm
  simp [containsSub, h0]

theorem eanMatches_contains {ean content : List Char} (hne : ean ≠ [])
    (h : eanMatches ean content ≠ []) : containsSub ean content = true := by
  obtain ⟨⟨ms, me⟩, hmem⟩ := List.exists_mem_of_ne_nil _ h
  unfold eanMatches at hmem
  rw [List.mem_flatMap] at hmem
  obtain ⟨r, hr, hspan⟩ := hmem
  unfold finditerRE at hspan
  obtain ⟨-, m, hmlist, -⟩ := finditerFuel_mem r content _ _ _ _ hspan
  simp only [eanPatterns, List.mem_cons, List.not_mem_nil, or_false] at hr
  rcases hr with h1 | h1 | h1 | h1 | h1 <;> subst h1
  · exact isSubAt_contains hne (eanPatWord_sub hmlist)
  all_goals
    obtain ⟨q, hq⟩ := eanPatLabel_sub hmlist
    exact isSubAt_contains hne hq

theorem allFindings_url (ean content url : List Char) :
    ∀ f ∈ allFindings ean content url, f.url = url := by
  have hpf : ∀ f ∈ patternFindings ean content url, f.url = url := by
    intro f hf
    unfold patternFindings at hf
    exact foldl_dedup_url (fun mm => processMatch content url mm) url
      (fun mm => processMatch_url content url mm) _ [] (by intro x hx; simp at hx) f hf
  unfold allFindings
  split
  · intro f hf
    rcases List.mem_append.mp hf with h | h
    · exact hpf f h
    · simp only [List.mem_singleton] at h
      subst h
      exact fallbackFinding_url ean content url
  · exact hpf

theorem allFindings_nodup (ean content url : List Char) :
    ((allFindings ean content url).map Finding.snippet).Nodup := by
  have hpf : ((patternFindings ean content url).map Finding.snippet).Nodup := by
    unfold patternFindings
    exact foldl_dedup_nodup _ _ [] (by simp)
  unfold allFindings
  split
  · rename_i hcond
    rw [Bool.and_eq_true] at hcond
    rw [List.isEmpty_iff.mp hcond.1]
    simp
  · exact hpf

theorem analyze_content_some {ean content url : List Char} {r : SourceResult}
    (h : analyze_content ean content url = some r) :
    r = ⟨url, allFindings ean content url⟩ ∧ content.isEmpty = false ∧
      allFindings ean content url ≠ [] := by
  unfold analyze_content at h
  split at h
  · cases h
  · rename_i hc
    split at h
    · cases h
    · rename_i hf
      injection h with h1
      refine ⟨h1.symm, by simpa using hc, fun hn => hf (by rw [hn]; rfl)⟩

/-! ### Claim theorems -/

theorem specTotal_eq (ean : List Char) : specTotal ean = ean13Total ean := by
  have h12 : List.range 12 = [0, 1, 2, 3, 4, 5, 6, 7, 8, 9, 10, 11] := by decide
  simp only [specTotal, ean13Total, h12, List.map_cons, List.map_nil, List.sum_cons,
    List.sum_nil, List.foldl_cons, List.foldl_nil]
  norm_num
  omega

/-- C1: `validate_ean` accepts a code exactly when it consists solely of
digits, its length is 8, 13 or 14 and, when the length is 13, the check
digit `(10 - total mod 10) mod 10` computed from the weighted sum over the
first 12 digits (weight 1 at even 0-based indices, weight 3 at odd ones)
equals the 13th digit; every digit string of length 8 or 14 is accepted
unconditionally. -/
theorem c1_validate_ean_spec (ean : List Char) :
    validate_ean ean = true ↔
      (ean.all Char.isDigit = true ∧
       (ean.length = 8 ∨ ean.length = 13 ∨ ean.length = 14) ∧
       (ean.length = 13 → (10 - specTotal ean % 10) % 10 = digitAt ean 12)) := by
  rw [specTotal_eq]
  cases hd : pyIsdigit ean with
  | false =>
    have hv : validate_ean ean = false := by
      unfold validate_ean
      rw [hd]
      simp
    rw [hv]
    simp only [Bool.false_eq_true, false_iff]
    rintro ⟨hall, hlen, -⟩
    have hne : ean ≠ [] := by
      intro he
      subst he
      simp at hlen
    have hpd : pyIsdigit ean = true := by
      unfold pyIsdigit
      rw [Bool.and_eq_true]
      refine ⟨?_, hall⟩
      simp only [Bool.not_eq_true']
      cases ean with
      | nil => exact absurd rfl hne
      | cons a t => rfl
    rw [hd] at hpd
    cases hpd
  | true =>
    have hall : ean.all Char.isDigit = true := by
      have hpd := hd
      unfold pyIsdigit at hpd
      rw [Bool.and_eq_true] at hpd
      exact hpd.2
    by_cases hlen : ean.length = 8 ∨ ean.length = 13 ∨ ean.length = 14
    · by_cases h13 : ean.length = 13
      · have hv : validate_ean ean =
            decide ((10 - ean13Total ean % 10) % 10 = digitAt ean 12) := by
          unfold validate_ean
          rw [hd, if_neg (by simp), if_neg (not_not_intro hlen), if_pos h13]
        rw [hv]
        simp only [decide_eq_true_eq]
        constructor
        · intro h
          exact ⟨hall, hlen, fun _ => h⟩
        · intro h
          exact h.2.2 h13
      · have hv : validate_ean ean = true := by
          unfold validate_ean
          rw [hd, if_neg (by simp), if_neg (not_not_intro hlen), if_neg h13]
        rw [hv]
        constructor
        · intro _
          exact ⟨hall, hlen, fun hc => absurd hc h13⟩
        · intro _
          rfl
    · have hv : validate_ean ean = false := by
        unfold validate_ean
        rw [hd, if_neg (by simp), if_pos hlen]
      rw [hv]
      simp only [Bool.false_eq_true, false_iff]
      rintro ⟨-, hl, -⟩
      exact hlen hl

/-- C1 witness: the theorem instantiated at the 8-digit scenario code. -/
theorem c1_witness :
    validate_ean (L "12345678") = true ↔
      ((L "12345678").all Char.isDigit = true ∧
       ((L "12345678").length = 8 ∨ (L "12345678").length = 13 ∨
         (L "12345678").length = 14) ∧
       ((L "12345678").length = 13 →
         (10 - specTotal (L "12345678") % 10) % 10 = digitAt (L "12345678") 12)) :=
  c1_validate_ean_spec (L "12345678")

/-- C2 counterexample: the scenario code 1234567890128 in fact passes
validation (its check digit is correct), and for a code that really fails
validation `search` returns the plain empty list - the same value a valid
run with zero results returns - so no `InvalidInputError` reaches the
caller and the two cases are not distinguishable from the return value. -/
theorem c2_counterexample :
    validate_ean code128 = true ∧
    validate_ean code123 = false ∧
    search code123 [some sampleResult] = [] ∧
    search (L "12345678") [] = [] ∧
    search code123 [some sampleResult] = search (L "12345678") [] := by
  refine ⟨by decide, by decide, by decide, by decide, by decide⟩

/-- C2 (amended): for every code that fails validation, `search` returns
the empty result list; the function has no error channel, so the caller
sees exactly the value of a valid run with zero results. -/
theorem c2_search_invalid_returns_empty (ean : List Char)
    (taskResults : List (Option SourceResult)) (h : validate_ean ean = false) :
    search ean taskResults = [] := by
  unfold search
  rw [h]
  simp

/-- C2 witness: the amended theorem at the truly invalid code
1234567890123 with a non-empty pending task result. -/
theorem c2_witness :
    validate_ean code123 = false ∧ search code123 [some sampleResult] = [] :=
  ⟨by decide, c2_search_invalid_returns_empty code123 [some sampleResult] (by decide)⟩

/-- C3: a context window is assessed `Histórico` exactly when the
historical indicator count strictly exceeds the current indicator count,
`Actual` exactly when the current count strictly exceeds the historical
one, and `Indeterminado` exactly when the two counts are equal (including
both zero). -/
theorem c3_classification (ctx : List Char) :
    (assess ctx = L "Histórico" ↔ currentScore ctx < historicalScore ctx) ∧
    (assess ctx = L "Actual" ↔ historicalScore ctx < currentScore ctx) ∧
    (assess ctx = L "Indeterminado" ↔ historicalScore ctx = currentScore ctx) := by
  have hHA : L "Histórico" ≠ L "Actual" := by decide
  have hHI : L "Histórico" ≠ L "Indeterminado" := by decide
  have hAI : L "Actual" ≠ L "Indeterminado" := by decide
  unfold assess
  rcases Nat.lt_trichotomy (currentScore ctx) (historicalScore ctx) with h | h | h
  · rw [if_pos h]
    refine ⟨⟨fun _ => h, fun _ => rfl⟩, ?_, ?_⟩
    · exact ⟨fun he => absurd he hHA, fun hlt => by omega⟩
    · exact ⟨fun he => absurd he hHI, fun heq => by omega⟩
  · rw [if_neg (by omega), if_neg (by omega)]
    refine ⟨?_, ?_, ⟨fun _ => h.symm, fun _ => rfl⟩⟩
    · exact ⟨fun he => absurd he.symm hHI, fun hlt => by omega⟩
    · exact ⟨fun he => absurd he.symm hAI, fun hlt => by omega⟩
  · rw [if_neg (by omega), if_pos h]
    refine ⟨?_, ⟨fun _ => h, fun _ => rfl⟩, ?_⟩
    · exact ⟨fun he => absurd he.symm hHA, fun hlt => by omega⟩
    · exact ⟨fun he => absurd he hAI, fun heq => by omega⟩

/-- C3 witness: the theorem instantiated at a window with one historical
and no current indicator. -/
theorem c3_witness :
    assess (L "fue descatalogado") = L "Histórico" ↔
      currentScore (L "fue descatalogado") < historicalScore (L "fue descatalogado") :=
  (c3_classification (L "fue descatalogado")).1

/-- C7: the members of the result list collected by `search` do not depend
on the order in which the task results arrive: any permutation of the
completion sequence yields a collection with exactly the same members. -/
theorem c7_order_insensitive (ean : List Char)
    (rs rs2 : List (Option SourceResult)) (hperm : rs.Perm rs2)
    (hv : validate_ean ean = true) :
    ∀ x, x ∈ search ean rs ↔ x ∈ search ean rs2 := by
  intro x
  unfold search
  rw [hv]
  simp only [if_true]
  unfold collectResults
  exact List.Perm.mem_iff ((hperm.filterMap id).filter _)

/-- C7 witness: a two-element completion sequence and its swap produce the
same membership for the sample result. -/
theorem c7_witness :
    (([none, some sampleResult] : List (Option SourceResult)).Perm
      [some sampleResult, none]) ∧
    validate_ean (L "12345678") = true ∧
    (sampleResult ∈ search (L "12345678") [none, some sampleResult] ↔
      sampleResult ∈ search (L "12345678") [some sampleResult, none]) :=
  ⟨by decide, by decide,
   c7_order_insensitive (L "12345678") _ _ (by decide) (by decide) sampleResult⟩

/-- C8: `analyze_content` is deterministic - two runs on identical
content and url inputs return identical results, all fields included. -/
theorem c8_deterministic (ean ca ua cb ub : List Char)
    (hc : ca = cb) (hu : ua = ub) :
    analyze_content ean ca ua = analyze_content ean cb ub := by
  subst hc
  subst hu
  rfl

/-- C8 witness: the theorem at a concrete repeated input. -/
theorem c8_witness :
    analyze_content (L "12345678") smallContent (L "u") =
      analyze_content (L "12345678") smallContent (L "u") :=
  c8_deterministic (L "12345678") smallContent (L "u") smallContent (L "u") rfl rfl

/-- C4: for a non-empty code, `analyze_content` produces a result exactly
when the code occurs literally as a substring of the content, and when the
code occurs but no mention pattern produced a finding, the result is
exactly the single fallback finding, whose assessment is `Indeterminado`. -/
theorem c4_presence_iff (ean content url : List Char) (hne : ean ≠ []) :
    ((analyze_content ean content url).isSome = true ↔
      containsSub ean content = true) ∧
    (patternFindings ean content url = [] → containsSub ean content = true →
      analyze_content ean content url =
        some ⟨url, [fallbackFinding ean content url]⟩ ∧
      (fallbackFinding ean content url).assessment = L "Indeterminado") := by
  constructor
  · constructor
    · intro h
      rw [Option.isSome_iff_exists] at h
      obtain ⟨r, hr⟩ := h
      obtain ⟨-, -, hfne⟩ := analyze_content_some hr
      unfold allFindings at hfne
      by_cases hcond :
          ((patternFindings ean content url).isEmpty && containsSub ean content) = true
      · rw [Bool.and_eq_true] at hcond
        exact hcond.2
      · rw [if_neg hcond] at hfne
        have hm : eanMatches ean content ≠ [] := fun hmm =>
          hfne ((patternFindings_nil_iff ean content url).mpr hmm)
        exact eanMatches_contains hne hm
    · intro hcont
      have hcne : content ≠ [] := by
        intro he
        subst he
        rw [containsSub_nil hne] at hcont
        cases hcont
      have hfne : allFindings ean content url ≠ [] := by
        unfold allFindings
        split
        · simp
        · rename_i hcond
          intro hnil
          exact hcond (by
            rw [Bool.and_eq_true]
            exact ⟨by rw [hnil]; rfl, hcont⟩)
      unfold analyze_content
      rw [if_neg (fun h => hcne (List.isEmpty_iff.mp h)),
        if_neg (fun h => hfne (List.isEmpty_iff.mp h))]
      rfl
  · intro hpf hcont
    have hcne : content ≠ [] := by
      intro he
      subst he
      rw [containsSub_nil hne] at hcont
      cases hcont
    have hall : allFindings ean content url = [fallbackFinding ean content url] := by
      unfold allFindings
      rw [if_pos (by
        rw [Bool.and_eq_true]
        exact ⟨by rw [hpf]; rfl, hcont⟩)]
      rw [hpf]
      rfl
    refine ⟨?_, rfl⟩
    unfold analyze_content
    rw [if_neg (fun h => hcne (List.isEmpty_iff.mp h)), hall, if_neg (by simp)]

/-- C4 witness: the theorem at a content equal to the bare code. -/
theorem c4_witness :
    ((L "12345678" : List Char) ≠ []) ∧
    ((analyze_content (L "12345678") smallContent (L "u")).isSome = true ↔
      containsSub (L "12345678") smallContent = true) :=
  ⟨by decide, (c4_presence_iff (L "12345678") smallContent (L "u") (by decide)).1⟩

/-- C5: the findings returned by `analyze_content` have pairwise distinct
snippet texts, and every pattern-based mention contributes its cleaned
snippet to the collected list - so two mentions with identical cleaned
windows end up as exactly one finding. -/
theorem c5_snippet_dedup (ean content url : List Char) (r : SourceResult)
    (h : analyze_content ean content url = some r) :
    (r.findings.map Finding.snippet).Nodup ∧
    ∀ mm ∈ eanMatches ean content,
      (processMatch content url mm).snippet ∈
        (patternFindings ean content url).map Finding.snippet := by
  obtain ⟨hr, -, -⟩ := analyze_content_some h
  subst hr
  refine ⟨allFindings_nodup ean content url, ?_⟩
  intro mm hmm
  unfold patternFindings
  exact foldl_dedup_snippet_mem (fun m => processMatch content url m) _ [] mm hmm

/-- C5 witness: the theorem at a concrete run with one finding. -/
theorem c5_witness :
    analyze_content (L "12345678") smallContent (L "u") = some smallResult ∧
    (smallResult.findings.map Finding.snippet).Nodup :=
  ⟨by decide,
   (c5_snippet_dedup (L "12345678") smallContent (L "u") smallResult (by decide)).1⟩

/-- C6: every context window of `analyze_content` is clamped to the
content: for each pattern-based mention span, and for the fallback window
around the first raw occurrence, the slice start is at most the slice end
and the slice end is at most the content length. -/
theorem c6_window_bounds (ean content : List Char) :
    (∀ mm ∈ eanMatches ean content,
       mm.1 - 400 ≤ min content.length (mm.2 + 400) ∧
       min content.length (mm.2 + 400) ≤ content.length) ∧
    (∀ p : Nat, findSub ean content = some p →
       p - 400 ≤ min content.length (p + 400) ∧
       min content.length (p + 400) ≤ content.length) := by
  constructor
  · rintro ⟨ms, me⟩ hmem
    unfold eanMatches at hmem
    rw [List.mem_flatMap] at hmem
    obtain ⟨r, -, hspan⟩ := hmem
    have hb := finditer_bounds r content ms me hspan
    simp only
    omega
  · intro p hp
    have hple := findSub_le hp
    omega

/-- C6 witness: the theorem at the concrete mention span of the bare-code
content. -/
theorem c6_witness :
    ((0, 8) ∈ eanMatches (L "12345678") smallContent) ∧
    (0 - 400 ≤ min smallContent.length (8 + 400) ∧
     min smallContent.length (8 + 400) ≤ smallContent.length) :=
  ⟨by decide, (c6_window_bounds (L "12345678") smallContent).1 (0, 8) (by decide)⟩

/-- C10: every result of `analyze_content` carries the url argument both
as the result url and as the url field of each finding. -/
theorem c10_url_propagation (ean content url : List Char) (r : SourceResult)
    (h : analyze_content ean content url = some r) :
    r.url = url ∧ ∀ f ∈ r.findings, f.url = url := by
  obtain ⟨hr, -, -⟩ := analyze_content_some h
  subst hr
  exact ⟨rfl, allFindings_url ean content url⟩

/-- C10 witness: the theorem at a concrete run, checked on the result and
on its single finding. -/
theorem c10_witness :
    analyze_content (L "12345678") smallContent (L "u") = some smallResult ∧
    smallResult.url = L "u" ∧
    (⟨L "12345678", L "No identificado", L "Indeterminado", L "12345678",
       L "u"⟩ : Finding).url = L "u" :=
  ⟨by decide,
   (c10_url_propagation (L "12345678") smallContent (L "u") smallResult (by decide)).1,
   (c10_url_propagation (L "12345678") smallContent (L "u") smallResult (by decide)).2
     _ (by decide)⟩

/-- C9 counterexample: on the scenario content the single finding's date
clue is the discontinuation keyword, not the year 2015: the keyword date
pattern (which has no capture group, so the whole match is taken) precedes
every year pattern in the ordered `date_patterns` list. -/
theorem c9_counterexample :
    ¬ ((analyze_content code123 c9content (L "http://example.com")).map
        (fun r => r.findings.map (fun f => (f.assessment, f.date_clue))) =
      some [(L "Histórico", L "2015")]) := by decide

/-- C9 (amended): the scenario content with its code yields exactly one
finding, assessed Histórico, whose date clue is the keyword
descatalogado. -/
theorem c9_scenario :
    (analyze_content code123 c9content (L "http://example.com")).map
        (fun r => r.findings.map (fun f => (f.assessment, f.date_clue))) =
      some [(L "Histórico", L "descatalogado")] := by decide

end EanSearch
